import Mathlib

/-!
Verification of the expense-tracker core (storage adapter, state mutations,
and the derived-aggregate computation), shallowly embedded from the
TypeScript/React source.

Modelling conventions:
* JS numbers are modelled as exact rationals (`ℚ`); `NaN` outcomes of
  `parseFloat` are modelled as `Option.none`.
* Calendar instants are modelled at day granularity as a count of days since
  1970-01-01 (`Int`); all windows in the source are truncated to local
  midnight before comparison, and expense dates are parsed at local midnight,
  so day granularity is exact for every comparison the source performs.
  `Date.prototype.setDate` with an out-of-range argument performs exact
  calendar day arithmetic, which the day-count model reflects directly.
* The `localStorage` slot is a `StoredValue`: absent, unparseable text, or a
  parsed record whose three fields are each optionally present.
* React state-setter semantics: a `useEffect` with dependency array re-runs
  exactly when some dependency is not `Object.is`-equal to its previous
  value. `setExpenses` always produces a fresh array (new identity), while a
  target setter with an identical number leaves the dependency unchanged.
-/

set_option maxRecDepth 4000

namespace ExpenseTracker

/-! ### Calendar model -/

/-- Civil calendar date, the model of a `YYYY-MM-DD` date string. -/
structure CivilDate where
  year : Int
  month : Int
  day : Int
deriving DecidableEq, Repr

/-- Days since 1970-01-01 of a civil date (standard civil-from-days inverse,
Gregorian calendar), the model of `new Date(dateString + 'T00:00:00')` at day
granularity. -/
def daysFromCivil (y m d : Int) : Int :=
  let y2 : Int := if m ≤ 2 then y - 1 else y
  let era : Int := (if 0 ≤ y2 then y2 else y2 - 399) / 400
  let yoe : Int := y2 - era * 400
  let doy : Int := (153 * (m + (if 2 < m then -3 else 9)) + 2) / 5 + d - 1
  let doe : Int := yoe * 365 + yoe / 4 - yoe / 100 + doy
  era * 146097 + doe - 719468

/-- Day number of a civil date. -/
def CivilDate.toDays (c : CivilDate) : Int := daysFromCivil c.year c.month c.day

/-- Model of `Date.prototype.getDay`: 0 = Sunday … 6 = Saturday.
1970-01-01 (day 0) was a Thursday, hence the offset 4. -/
def dayOfWeek (d : Int) : Int := (d + 4) % 7

/-- Source `getStartOfWeek`, at day granularity: the source computes
`diff = d.getDate() - day + (day === 0 ? -6 : 1)` and applies it with
`setDate`, i.e. it moves `now` back by `day - 1` days (6 days when `day = 0`).
The caller truncates the result to midnight, which day granularity already
reflects. -/
def getStartOfWeek (now : Int) : Int :=
  now - (if dayOfWeek now = 0 then 6 else dayOfWeek now - 1)

/-! ### Model of `parseFloat` -/

/-- Greedily consume decimal digits, returning the accumulated value, the
number of digits consumed, and the remaining characters. -/
def takeDigits (acc : Nat) (n : Nat) : List Char → (Nat × Nat) × List Char
  | [] => ((acc, n), [])
  | c :: cs =>
    if c.isDigit then takeDigits (acc * 10 + (c.toNat - 48)) (n + 1) cs
    else ((acc, n), c :: cs)

/-- Optional exponent part of a JS decimal literal: `e`/`E`, an optional
sign, then digits; an incomplete exponent contributes nothing (JS stops at
the longest valid prefix). -/
def takeExponent (cs : List Char) : Int :=
  match cs with
  | c :: rest =>
    if c = 'e' ∨ c = 'E' then
      match rest with
      | '-' :: ds =>
        let p := takeDigits 0 0 ds
        if p.1.2 = 0 then 0 else -(p.1.1 : Int)
      | '+' :: ds =>
        let p := takeDigits 0 0 ds
        if p.1.2 = 0 then 0 else (p.1.1 : Int)
      | ds =>
        let p := takeDigits 0 0 ds
        if p.1.2 = 0 then 0 else (p.1.1 : Int)
    else 0
  | [] => 0

/-- Model of JS `parseFloat` over exact rationals: skip leading whitespace,
optional sign, digits with an optional fractional part, optional exponent;
`none` models `NaN` (no digit consumed). The non-finite literals
(`Infinity`) have no rational value and are outside the model. -/
def parseFloat (s : String) : Option ℚ :=
  let cs := s.toList.dropWhile (fun c => c.isWhitespace)
  let signed : ℚ × List Char :=
    match cs with
    | '-' :: rest => (-1, rest)
    | '+' :: rest => (1, rest)
    | _ => (1, cs)
  let intPart := takeDigits 0 0 signed.2
  let fracPart :=
    match intPart.2 with
    | '.' :: rest => takeDigits 0 0 rest
    | _ => ((0, 0), intPart.2)
  if intPart.1.2 = 0 ∧ fracPart.1.2 = 0 then none
  else
    let mant : ℚ := (intPart.1.1 : ℚ) + (fracPart.1.1 : ℚ) / ((10 : ℚ) ^ fracPart.1.2)
    some (signed.1 * mant * (10 : ℚ) ^ takeExponent fracPart.2)

/-- Model of `x || dflt` where `x` is either absent (`none`, also standing
for `NaN`) or a number: the falsy numbers (`NaN`, `0`) yield the default. -/
def jsNumOrDefault (v : Option ℚ) (dflt : ℚ) : ℚ :=
  match v with
  | none => dflt
  | some q => if q = 0 then dflt else q

/-! ### Data model -/

/-- One recorded transaction (source `Expense` shape). -/
structure Expense where
  id : Int
  amount : ℚ
  category : String
  date : CivilDate
deriving DecidableEq, Repr

/-- The aggregate root held in React state and persisted as one record
(source `AppData`). -/
structure AppData where
  expenses : List Expense
  weeklyTarget : ℚ
  monthlyTarget : ℚ
deriving DecidableEq, Repr

/-- Source `CATEGORIES`. -/
def CATEGORIES : List String := ["Food", "Travel", "Dress", "Entertainment", "Other"]

/-! ### Persistence adapter (`storage.ts`) -/

/-- Parsed shape of the stored JSON record; each top-level field may be
missing. -/
structure StoredRecord where
  expenses : Option (List Expense)
  weeklyTarget : Option ℚ
  monthlyTarget : Option ℚ
deriving DecidableEq, Repr

/-- State of the `localStorage` slot under the fixed key: no value stored,
stored text that `JSON.parse` rejects (the catch path), or a parsed record. -/
inductive StoredValue where
  | absent
  | corrupt
  | record (r : StoredRecord)
deriving DecidableEq, Repr

/-- Default `AppData` returned by `loadData` on the absent and error paths. -/
def defaultAppData : AppData :=
  { expenses := [], weeklyTarget := 500, monthlyTarget := 2000 }

/-- Source `loadData`: absent key or unparseable text yields the defaults;
a parsed record is recovered field by field with `||`-defaulting (a present
array is always truthy and kept; a numeric field equal to 0 is falsy and
replaced by its default). Total: the source wraps everything in
`try`/`catch` and never throws. -/
def loadData : StoredValue → AppData
  | .absent => defaultAppData
  | .corrupt => defaultAppData
  | .record r =>
    { expenses := r.expenses.getD [],
      weeklyTarget := jsNumOrDefault r.weeklyTarget 500,
      monthlyTarget := jsNumOrDefault r.monthlyTarget 2000 }

/-- Serialized form of the full `AppData` (all three fields present). -/
def toStored (d : AppData) : StoredRecord :=
  { expenses := some d.expenses,
    weeklyTarget := some d.weeklyTarget,
    monthlyTarget := some d.monthlyTarget }

/-- Source `saveData`: writes the serialized record under the fixed key;
`writeOk = false` models a throwing `setItem` (quota, privacy mode), whose
failure the `catch` absorbs, leaving the stored value as it was. Total:
never throws to its caller. -/
def saveData (d : AppData) (writeOk : Bool) (store : StoredValue) : StoredValue :=
  if writeOk then .record (toStored d) else store

/-! ### Aggregate computation (the `useMemo` body in `App`) -/

/-- Result of the aggregate computation. `categoryTotals` is an association
list, the model of the JS object built by the `reduce` over `CATEGORIES`. -/
structure Aggregates where
  weeklySpent : ℚ
  monthlySpent : ℚ
  categoryTotals : List (String × ℚ)
deriving DecidableEq, Repr

/-- Source `CATEGORIES.reduce((acc, cat) => ({...acc, [cat]: 0}), {})`. -/
def catTotalsInit : List (String × ℚ) := CATEGORIES.map (fun c => (c, 0))

/-- Key-membership in the totals object, the model of
`catTotals[expense.category] !== undefined`. -/
def hasKey (cat : String) : List (String × ℚ) → Bool
  | [] => false
  | p :: ps => p.1 == cat || hasKey cat ps

/-- Value stored under a key of the totals object. -/
def lookupTotal (cat : String) : List (String × ℚ) → Option ℚ
  | [] => none
  | p :: ps => if p.1 = cat then some p.2 else lookupTotal cat ps

/-- Source `catTotals[expense.category] += expense.amount` guarded by the
`!== undefined` check: add to the entry when the key is present, otherwise
leave the object unchanged. -/
def bump (cat : String) (amt : ℚ) (acc : List (String × ℚ)) : List (String × ℚ) :=
  if hasKey cat acc then
    acc.map (fun p => if p.1 = cat then (p.1, p.2 + amt) else p)
  else acc

/-- Body of the `expenses.forEach` loop: the month test feeds `monthly` and
the category object, the week test feeds `weekly`. -/
def aggStep (startOfMonth startOfWeek : Int) (agg : Aggregates) (e : Expense) : Aggregates :=
  let expenseDate := e.date.toDays
  let agg1 :=
    if startOfMonth ≤ expenseDate then
      { agg with
        monthlySpent := agg.monthlySpent + e.amount,
        categoryTotals := bump e.category e.amount agg.categoryTotals }
    else agg
  if startOfWeek ≤ expenseDate then
    { agg1 with weeklySpent := agg1.weeklySpent + e.amount }
  else agg1

/-- The `useMemo` aggregate computation: week window from `getStartOfWeek`
truncated to midnight, month window from the first of the current month, one
pass over the expense list. -/
def computeAggregates (now : CivilDate) (expenses : List Expense) : Aggregates :=
  let startOfWeek := getStartOfWeek now.toDays
  let startOfMonth := daysFromCivil now.year now.month 1
  expenses.foldl (aggStep startOfMonth startOfWeek)
    { weeklySpent := 0, monthlySpent := 0, categoryTotals := catTotalsInit }

/-! ### Mutation operations of `App` -/

/-- Comparator of `handleAddExpense`'s sort: `(a, b) => new Date(b.date) -
new Date(a.date)`, i.e. descending by date; `Array.prototype.sort` is
stable, modelled by `List.mergeSort`. -/
def expenseDesc (a b : Expense) : Bool := b.date.toDays ≤ a.date.toDays

/-- Full-list re-sort performed by `handleAddExpense`. -/
def sortExpenses (l : List Expense) : List Expense := l.mergeSort expenseDesc

/-- Save-effect guard of `App`: `expenses.length > 0 || weeklyTarget > 0 ||
monthlyTarget > 0`. -/
def saveGuard (s : AppData) : Bool :=
  !s.expenses.isEmpty || decide (0 < s.weeklyTarget) || decide (0 < s.monthlyTarget)

/-- Writes issued by the save `useEffect` when its dependencies changed:
one full-state write when the guard holds, none otherwise. -/
def emitIfGuarded (s : AppData) : List AppData :=
  if saveGuard s then [s] else []

/-- A user-level mutation. Target mutations carry the raw input text of the
settings field (the handlers apply `parseFloat(value) || 0`); `addExpense`
carries the raw amount text validated by `handleSubmit`. -/
inductive Op where
  | addExpense (amount : String) (category : String) (date : CivilDate)
  | deleteExpense (id : Int)
  | setWeeklyTarget (value : String)
  | setMonthlyTarget (value : String)
deriving DecidableEq, Repr

/-- One mutation against the in-memory state, returning the updated state
and the persistence writes issued by the save effect. `freshId` models
`Date.now()`. Rejected adds change nothing, so the effect's dependencies
are unchanged and no write occurs; `setExpenses` always yields a fresh
array, so accepted adds and deletes re-run the effect; a target setter
re-runs it only when the numeric value actually changed. -/
def applyOp (freshId : Int) (op : Op) (s : AppData) : AppData × List AppData :=
  match op with
  | .addExpense amount category date =>
    if amount = "" ∨ (parseFloat amount).isNone then (s, [])
    else
      let newEntry : Expense :=
        { id := freshId, amount := (parseFloat amount).getD 0,
          category := category, date := date }
      let s2 := { s with expenses := sortExpenses (s.expenses ++ [newEntry]) }
      (s2, emitIfGuarded s2)
  | .deleteExpense id =>
    let s2 := { s with expenses := s.expenses.filter (fun e => e.id != id) }
    (s2, emitIfGuarded s2)
  | .setWeeklyTarget value =>
    let v := jsNumOrDefault (parseFloat value) 0
    let s2 := { s with weeklyTarget := v }
    (s2, if v = s.weeklyTarget then [] else emitIfGuarded s2)
  | .setMonthlyTarget value =>
    let v := jsNumOrDefault (parseFloat value) 0
    let s2 := { s with monthlyTarget := v }
    (s2, if v = s.monthlyTarget then [] else emitIfGuarded s2)

/-- Run a sequence of mutations (each paired with its fresh id), collecting
the persistence writes in the order they are issued. -/
def runOps : List (Int × Op) → AppData → AppData × List AppData
  | [], s => (s, [])
  | (fid, op) :: rest, s =>
    let step := applyOp fid op s
    let tail := runOps rest step.1
    (tail.1, step.2 ++ tail.2)

/-! ### Derived descriptions of the aggregate computation -/

/-- Sum of the amounts of a list of expenses. -/
def sumAmounts (l : List Expense) : ℚ := (l.map Expense.amount).sum

/-- Sum of amounts over the expenses dated on or after `start`. -/
def windowSum (start : Int) (l : List Expense) : ℚ :=
  sumAmounts (l.filter (fun e => decide (start ≤ e.date.toDays)))

/-- Sum of amounts over the expenses dated on or after `start` whose category
is `c`. -/
def catSum (start : Int) (c : String) (l : List Expense) : ℚ :=
  sumAmounts (l.filter (fun e => decide (start ≤ e.date.toDays) && decide (e.category = c)))

theorem aggStep_weeklySpent (som sow : Int) (agg : Aggregates) (e : Expense) :
    (aggStep som sow agg e).weeklySpent
      = agg.weeklySpent + (if sow ≤ e.date.toDays then e.amount else 0) := by
  by_cases h1 : som ≤ e.date.toDays <;> by_cases h2 : sow ≤ e.date.toDays <;>
    simp [aggStep, h1, h2]

theorem aggStep_monthlySpent (som sow : Int) (agg : Aggregates) (e : Expense) :
    (aggStep som sow agg e).monthlySpent
      = agg.monthlySpent + (if som ≤ e.date.toDays then e.amount else 0) := by
  by_cases h1 : som ≤ e.date.toDays <;> by_cases h2 : sow ≤ e.date.toDays <;>
    simp [aggStep, h1, h2]

theorem aggStep_categoryTotals (som sow : Int) (agg : Aggregates) (e : Expense) :
    (aggStep som sow agg e).categoryTotals
      = if som ≤ e.date.toDays then bump e.category e.amount agg.categoryTotals
        else agg.categoryTotals := by
  by_cases h1 : som ≤ e.date.toDays <;> by_cases h2 : sow ≤ e.date.toDays <;>
    simp [aggStep, h1, h2]

theorem windowSum_cons_pos (start : Int) (e : Expense) (t : List Expense)
    (h : start ≤ e.date.toDays) :
    windowSum start (e :: t) = e.amount + windowSum start t := by
  simp [windowSum, sumAmounts, List.filter_cons, h]

theorem windowSum_cons_neg (start : Int) (e : Expense) (t : List Expense)
    (h : ¬ start ≤ e.date.toDays) :
    windowSum start (e :: t) = windowSum start t := by
  simp [windowSum, sumAmounts, List.filter_cons, h]

theorem foldl_aggStep_weeklySpent (som sow : Int) (l : List Expense) (agg : Aggregates) :
    (l.foldl (aggStep som sow) agg).weeklySpent = agg.weeklySpent + windowSum sow l := by
  induction l generalizing agg with
  | nil => simp [windowSum, sumAmounts]
  | cons e t ih =>
    rw [List.foldl_cons, ih, aggStep_weeklySpent]
    by_cases h : sow ≤ e.date.toDays
    · rw [if_pos h, windowSum_cons_pos sow e t h]; ring
    · rw [if_neg h, windowSum_cons_neg sow e t h]; ring

theorem foldl_aggStep_monthlySpent (som sow : Int) (l : List Expense) (agg : Aggregates) :
    (l.foldl (aggStep som sow) agg).monthlySpent = agg.monthlySpent + windowSum som l := by
  induction l generalizing agg with
  | nil => simp [windowSum, sumAmounts]
  | cons e t ih =>
    rw [List.foldl_cons, ih, aggStep_monthlySpent]
    by_cases h : som ≤ e.date.toDays
    · rw [if_pos h, windowSum_cons_pos som e t h]; ring
    · rw [if_neg h, windowSum_cons_neg som e t h]; ring

theorem hasKey_map_iff (cat : String) (ks : List String) (f : String → ℚ) :
    hasKey cat (ks.map (fun c => (c, f c))) = true ↔ cat ∈ ks := by
  induction ks with
  | nil => simp [hasKey]
  | cons k t ih =>
    simp only [List.map_cons, hasKey, Bool.or_eq_true, beq_iff_eq, ih, List.mem_cons]
    constructor
    · rintro (h | h)
      · exact Or.inl h.symm
      · exact Or.inr h
    · rintro (h | h)
      · exact Or.inl h.symm
      · exact Or.inr h

theorem bump_map_mem (cat : String) (amt : ℚ) (ks : List String) (f : String → ℚ)
    (h : cat ∈ ks) :
    bump cat amt (ks.map (fun c => (c, f c)))
      = ks.map (fun c => (c, if c = cat then f c + amt else f c)) := by
  rw [bump, if_pos ((hasKey_map_iff cat ks f).mpr h)]
  rw [List.map_map]
  refine List.map_congr_left (fun c _ => ?_)
  by_cases hc : c = cat <;> simp [hc]

theorem bump_map_not_mem (cat : String) (amt : ℚ) (ks : List String) (f : String → ℚ)
    (h : cat ∉ ks) :
    bump cat amt (ks.map (fun c => (c, f c))) = ks.map (fun c => (c, f c)) := by
  rw [bump, if_neg]
  simp [hasKey_map_iff, h]

theorem foldl_aggStep_categoryTotals (som sow : Int) (l : List Expense) :
    ∀ (agg : Aggregates) (f : String → ℚ),
      agg.categoryTotals = CATEGORIES.map (fun c => (c, f c)) →
      (l.foldl (aggStep som sow) agg).categoryTotals
        = CATEGORIES.map (fun c => (c, f c + catSum som c l)) := by
  induction l with
  | nil =>
    intro agg f h
    rw [List.foldl_nil, h]
    refine List.map_congr_left (fun c _ => ?_)
    simp [catSum, sumAmounts]
  | cons e t ih =>
    intro agg f h
    rw [List.foldl_cons]
    by_cases hm : som ≤ e.date.toDays
    · by_cases hc : e.category ∈ CATEGORIES
      · have hpre : (aggStep som sow agg e).categoryTotals
            = CATEGORIES.map (fun c => (c, if c = e.category then f c + e.amount else f c)) := by
          rw [aggStep_categoryTotals, if_pos hm, h, bump_map_mem _ _ _ _ hc]
        rw [ih _ _ hpre]
        refine List.map_congr_left (fun c _ => ?_)
        by_cases hce : c = e.category
        · have h1 : catSum som c (e :: t) = e.amount + catSum som c t := by
            simp [catSum, sumAmounts, List.filter_cons, hm, hce.symm]
          rw [h1, if_pos hce]; ring_nf
        · have hce2 : ¬ e.category = c := fun hx => hce hx.symm
          have h1 : catSum som c (e :: t) = catSum som c t := by
            simp [catSum, sumAmounts, List.filter_cons, hce2]
          rw [h1, if_neg hce]
      · have hpre : (aggStep som sow agg e).categoryTotals
            = CATEGORIES.map (fun c => (c, f c)) := by
          rw [aggStep_categoryTotals, if_pos hm, h, bump_map_not_mem _ _ _ _ hc]
        rw [ih _ _ hpre]
        refine List.map_congr_left (fun c hcmem => ?_)
        have hne : ¬ e.category = c := fun hx => hc (hx ▸ hcmem)
        have h1 : catSum som c (e :: t) = catSum som c t := by
          simp [catSum, sumAmounts, List.filter_cons, hne]
        rw [h1]
    · have hpre : (aggStep som sow agg e).categoryTotals
          = CATEGORIES.map (fun c => (c, f c)) := by
        rw [aggStep_categoryTotals, if_neg hm, h]
      rw [ih _ _ hpre]
      refine List.map_congr_left (fun c _ => ?_)
      have h1 : catSum som c (e :: t) = catSum som c t := by
        simp [catSum, sumAmounts, List.filter_cons, hm]
      rw [h1]

/-- Componentwise equality principle for aggregate results. -/
theorem Aggregates.eq_of_parts (a b : Aggregates)
    (h1 : a.weeklySpent = b.weeklySpent) (h2 : a.monthlySpent = b.monthlySpent)
    (h3 : a.categoryTotals = b.categoryTotals) : a = b := by
  cases a; cases b; simp_all

/-- Closed-form description of the aggregate computation: each component is
an independent filtered sum. -/
theorem computeAggregates_eq (now : CivilDate) (l : List Expense) :
    computeAggregates now l
      = { weeklySpent := windowSum (getStartOfWeek now.toDays) l,
          monthlySpent := windowSum (daysFromCivil now.year now.month 1) l,
          categoryTotals := CATEGORIES.map
            (fun c => (c, catSum (daysFromCivil now.year now.month 1) c l)) } := by
  refine Aggregates.eq_of_parts _ _ ?_ ?_ ?_
  · rw [computeAggregates]
    rw [foldl_aggStep_weeklySpent]
    simp
  · rw [computeAggregates]
    rw [foldl_aggStep_monthlySpent]
    simp
  · rw [computeAggregates]
    rw [foldl_aggStep_categoryTotals (daysFromCivil now.year now.month 1)
      (getStartOfWeek now.toDays) l ⟨0, 0, catTotalsInit⟩ (fun _ => 0) rfl]
    simp

/-! ### Claim C9 -/

/-- C9: `load()` and `save(state)` never raise to their callers: when the
stored key is absent or the stored value fails to parse, `load()` returns
the default AppState `{expenses: [], weeklyTarget: 500, monthlyTarget:
2000}`; when a write fails, `save` absorbs the failure and leaves the prior
persisted state unchanged. (Both functions are total in the model; the
absorbed failure paths are the `absent`/`corrupt` inputs and the
`writeOk = false` case.) -/
theorem load_save_absorb_failures :
    loadData .absent = { expenses := [], weeklyTarget := 500, monthlyTarget := 2000 } ∧
    loadData .corrupt = { expenses := [], weeklyTarget := 500, monthlyTarget := 2000 } ∧
    (∀ (d : AppData) (st : StoredValue), saveData d false st = st) ∧
    (∀ (d : AppData) (st : StoredValue), saveData d true st = .record (toStored d)) :=
  ⟨rfl, rfl, fun _ _ => rfl, fun _ _ => rfl⟩

/-! ### Claim C3 -/

/-- C3: for every stored record that parses, `load()` substitutes each of
the three top-level fields with its default (`[]`, `500`, `2000`)
independently, field by field, when that field is missing (or falsy, i.e. a
numeric field equal to 0), and preserves each present (truthy) field;
scenario: a record with one expense and `weeklyTarget 500` but no
`monthlyTarget` loads as `monthlyTarget = 2000` with the other fields
preserved. -/
theorem loadData_field_level_recovery :
    (∀ r : StoredRecord,
      (r.expenses = none → (loadData (.record r)).expenses = []) ∧
      (∀ xs, r.expenses = some xs → (loadData (.record r)).expenses = xs) ∧
      (r.weeklyTarget = none → (loadData (.record r)).weeklyTarget = 500) ∧
      (r.weeklyTarget = some 0 → (loadData (.record r)).weeklyTarget = 500) ∧
      (∀ q, r.weeklyTarget = some q → q ≠ 0 → (loadData (.record r)).weeklyTarget = q) ∧
      (r.monthlyTarget = none → (loadData (.record r)).monthlyTarget = 2000) ∧
      (r.monthlyTarget = some 0 → (loadData (.record r)).monthlyTarget = 2000) ∧
      (∀ q, r.monthlyTarget = some q → q ≠ 0 → (loadData (.record r)).monthlyTarget = q)) ∧
    loadData (.record ⟨some [⟨1, 100, "Food", ⟨2024, 7, 1⟩⟩], some 500, none⟩)
      = ⟨[⟨1, 100, "Food", ⟨2024, 7, 1⟩⟩], 500, 2000⟩ := by
  constructor
  · intro r
    refine ⟨?_, ?_, ?_, ?_, ?_, ?_, ?_, ?_⟩ <;> intros <;>
      simp_all [loadData, jsNumOrDefault]
  · decide

/-- Witness for C3: applying the theorem at a record missing `expenses` and
`weeklyTarget` but holding `monthlyTarget = 77`. -/
theorem loadData_field_level_recovery_witness :
    (loadData (.record ⟨none, none, some 77⟩)).expenses = [] ∧
    (loadData (.record ⟨none, none, some 77⟩)).monthlyTarget = 77 :=
  ⟨(loadData_field_level_recovery.1 ⟨none, none, some 77⟩).1 rfl,
   (loadData_field_level_recovery.1 ⟨none, none, some 77⟩).2.2.2.2.2.2.2 77 rfl
     (by norm_num)⟩

/-! ### Claim C4 -/

/-- C4: for every `amountText` that is not parseable as a decimal,
`addExpense(amountText, category, date)` is rejected: the state is
unchanged and no persistence write occurs. -/
theorem addExpense_unparseable_rejected :
    ∀ (freshId : Int) (amount category : String) (date : CivilDate) (s : AppData),
      parseFloat amount = none →
        applyOp freshId (Op.addExpense amount category date) s = (s, []) := by
  intro fid amount category date s h
  simp [applyOp, h]

/-- Witness for C4: `addExpense("abc", "Food", 2024-07-10)` leaves the state
unchanged and issues no write. -/
theorem addExpense_unparseable_rejected_witness :
    applyOp 3 (Op.addExpense "abc" "Food" ⟨2024, 7, 10⟩) ⟨[], 500, 2000⟩
      = (⟨[], 500, 2000⟩, []) :=
  addExpense_unparseable_rejected 3 "abc" "Food" ⟨2024, 7, 10⟩ ⟨[], 500, 2000⟩ rfl

/-! ### Claim C2 -/

/-- C2 counterexample: `setWeeklyTarget(-5)` applies `-5`, not `0` — the
handler computes `parseFloat(value) || 0`, and `-5` is truthy, so a negative
value is NOT coerced to 0. -/
theorem setWeeklyTarget_negative_not_coerced :
    (applyOp 0 (Op.setWeeklyTarget "-5") ⟨[], 500, 2000⟩).1.weeklyTarget = -5 ∧
    ¬ ((applyOp 0 (Op.setWeeklyTarget "-5") ⟨[], 500, 2000⟩).1.weeklyTarget = 0) := by
  have h5 : parseFloat "-5" = some (-5) := by
    simp +decide [parseFloat, takeDigits, takeExponent]
  constructor
  · simp [applyOp, jsNumOrDefault, h5]
  · simp [applyOp, jsNumOrDefault, h5]

/-- C2 amended: for every input value to `setWeeklyTarget` or
`setMonthlyTarget`, an unparseable value is coerced to 0 and a parseable
value is applied as-is (so `0` stays `0`, and a negative value such as `-5`
is applied as `-5`, not clamped); the operation never rejects, but the
applied target CAN be negative. -/
theorem setTarget_coercion_amended :
    ∀ (freshId : Int) (value : String) (s : AppData),
      (parseFloat value = none →
        (applyOp freshId (Op.setWeeklyTarget value) s).1.weeklyTarget = 0 ∧
        (applyOp freshId (Op.setMonthlyTarget value) s).1.monthlyTarget = 0) ∧
      (∀ q : ℚ, parseFloat value = some q → q ≠ 0 →
        (applyOp freshId (Op.setWeeklyTarget value) s).1.weeklyTarget = q ∧
        (applyOp freshId (Op.setMonthlyTarget value) s).1.monthlyTarget = q) ∧
      (parseFloat value = some 0 →
        (applyOp freshId (Op.setWeeklyTarget value) s).1.weeklyTarget = 0 ∧
        (applyOp freshId (Op.setMonthlyTarget value) s).1.monthlyTarget = 0) := by
  intro fid value s
  refine ⟨fun h => ⟨?_, ?_⟩, fun q hq hq0 => ⟨?_, ?_⟩, fun h => ⟨?_, ?_⟩⟩ <;>
    simp [applyOp, jsNumOrDefault, *]

/-- Witness for C2 amended: `-5` applied as `-5`; the unparseable `"x"`
coerced to 0. -/
theorem setTarget_coercion_amended_witness :
    (applyOp 0 (Op.setWeeklyTarget "-5") ⟨[], 400, 2000⟩).1.weeklyTarget = -5 ∧
    (applyOp 0 (Op.setMonthlyTarget "x") ⟨[], 400, 2000⟩).1.monthlyTarget = 0 :=
  ⟨((setTarget_coercion_amended 0 "-5" ⟨[], 400, 2000⟩).2.1 (-5)
      (by simp +decide [parseFloat, takeDigits, takeExponent]) (by norm_num)).1,
   ((setTarget_coercion_amended 0 "x" ⟨[], 400, 2000⟩).1 rfl).2⟩

/-! ### Claim C1 -/

/-- C1 counterexample: a mutation after which NO persistence write is
issued, although the in-memory state changed — `setMonthlyTarget(0)` from
state `{expenses: [], weeklyTarget: 0, monthlyTarget: 2000}` produces the
all-empty/zero state, which fails the save effect's guard
`expenses.length > 0 || weeklyTarget > 0 || monthlyTarget > 0`, so the
persisted record is left stale. -/
theorem mutation_without_write :
    (applyOp 0 (Op.setMonthlyTarget "0") ⟨[], 0, 2000⟩).1 ≠ (⟨[], 0, 2000⟩ : AppData) ∧
    (applyOp 0 (Op.setMonthlyTarget "0") ⟨[], 0, 2000⟩).2 = [] := by
  have h0 : parseFloat "0" = some 0 := by
    simp +decide [parseFloat, takeDigits, takeExponent]
  have hv : jsNumOrDefault (parseFloat "0") 0 = 0 := by rw [h0]; simp [jsNumOrDefault]
  constructor
  · intro hcontra
    have h2 := congrArg AppData.monthlyTarget hcontra
    simp [applyOp, hv] at h2
  · simp [applyOp, hv, emitIfGuarded, saveGuard]

/-- C1 amended: a persistence write of the full updated AppState is issued
synchronously after each state-changing mutation, in mutation order, EXCEPT
when the updated state has an empty expense list and no positive target (the
save effect's guard), in which case no write is issued. -/
theorem mutation_write_amended :
    (∀ (freshId : Int) (op : Op) (s : AppData),
      (applyOp freshId op s).1 ≠ s →
        (applyOp freshId op s).2
          = if saveGuard (applyOp freshId op s).1
            then [(applyOp freshId op s).1] else []) ∧
    (∀ (ops1 ops2 : List (Int × Op)) (s : AppData),
      (runOps (ops1 ++ ops2) s).2
          = (runOps ops1 s).2 ++ (runOps ops2 (runOps ops1 s).1).2 ∧
      (runOps (ops1 ++ ops2) s).1 = (runOps ops2 (runOps ops1 s).1).1) := by
  constructor
  · intro fid op s hne
    cases op with
    | addExpense a c d =>
      by_cases hrej : a = "" ∨ parseFloat a = none
      · exact absurd (by simp [applyOp, hrej]) hne
      · simp [applyOp, hrej, emitIfGuarded]
    | deleteExpense id => simp [applyOp, emitIfGuarded]
    | setWeeklyTarget v =>
      by_cases hv : jsNumOrDefault (parseFloat v) 0 = s.weeklyTarget
      · refine absurd ?_ hne
        cases s
        simp_all [applyOp]
      · simp [applyOp, hv, emitIfGuarded]
    | setMonthlyTarget v =>
      by_cases hv : jsNumOrDefault (parseFloat v) 0 = s.monthlyTarget
      · refine absurd ?_ hne
        cases s
        simp_all [applyOp]
      · simp [applyOp, hv, emitIfGuarded]
  · intro ops1
    induction ops1 with
    | nil => intro ops2 s; simp [runOps]
    | cons hd tl ih =>
      intro ops2 s
      obtain ⟨fid, op⟩ := hd
      simp only [List.cons_append, runOps, List.append_eq]
      constructor
      · rw [(ih ops2 (applyOp fid op s).1).1, List.append_assoc]
      · exact (ih ops2 (applyOp fid op s).1).2

/-- Witness for C1 amended: deleting the only expense from a state with
positive targets changes the state, and the issued writes match the guarded
form. -/
theorem mutation_write_amended_witness :
    (applyOp 0 (Op.deleteExpense 1) ⟨[⟨1, 100, "Food", ⟨2024, 7, 1⟩⟩], 500, 2000⟩).2
      = if saveGuard
            (applyOp 0 (Op.deleteExpense 1) ⟨[⟨1, 100, "Food", ⟨2024, 7, 1⟩⟩], 500, 2000⟩).1
        then [(applyOp 0 (Op.deleteExpense 1)
               ⟨[⟨1, 100, "Food", ⟨2024, 7, 1⟩⟩], 500, 2000⟩).1]
        else [] :=
  mutation_write_amended.1 0 (Op.deleteExpense 1)
    ⟨[⟨1, 100, "Food", ⟨2024, 7, 1⟩⟩], 500, 2000⟩ (by decide)

/-! ### Claim C8 -/

/-- Source `handleDeleteExpense` body: `prev.filter(exp => exp.id !== id)`. -/
def handleDeleteExpense (id : Int) (l : List Expense) : List Expense :=
  l.filter (fun e => e.id != id)

theorem filter_not_eq_eraseP (p : Expense → Bool) (l : List Expense)
    (h : l.countP p ≤ 1) : l.filter (fun e => !(p e)) = l.eraseP p := by
  induction l with
  | nil => simp
  | cons e t ih =>
    rw [List.countP_cons] at h
    by_cases hp : p e
    · have ht : t.countP p = 0 := by rw [if_pos hp] at h; omega
      have htf : t.filter (fun e => !(p e)) = t :=
        List.filter_eq_self.mpr (fun a ha => by
          have := List.countP_eq_zero.mp ht a ha
          simp [this])
      simp [List.filter_cons, List.eraseP_cons, hp, htf]
    · have ht : t.countP p ≤ 1 := by rw [if_neg hp] at h; omega
      simp [List.filter_cons, List.eraseP_cons, hp, ih ht]

/-- C8: for a list in which at most one entry matches `id` (ids are unique
by construction), `deleteExpense(id)` removes exactly the one matching entry
when present, leaving every other entry untouched and in order, and is a
no-op when no entry matches. -/
theorem deleteExpense_exact :
    ∀ (id : Int) (l : List Expense), l.countP (fun e => e.id == id) ≤ 1 →
      (l.countP (fun e => e.id == id) = 0 → handleDeleteExpense id l = l) ∧
      (l.countP (fun e => e.id == id) = 1 →
        handleDeleteExpense id l = l.eraseP (fun e => e.id == id) ∧
        (handleDeleteExpense id l).length + 1 = l.length ∧
        ∀ e ∈ l, e.id ≠ id → e ∈ handleDeleteExpense id l) := by
  intro id l hle
  have hdef : handleDeleteExpense id l = l.filter (fun e => !(e.id == id)) := by
    simp [handleDeleteExpense, bne]
  constructor
  · intro h0
    rw [hdef]
    exact List.filter_eq_self.mpr (fun a ha => by
      have := List.countP_eq_zero.mp h0 a ha
      simp [this])
  · intro h1
    refine ⟨?_, ?_, ?_⟩
    · rw [hdef]
      exact filter_not_eq_eraseP (fun e => e.id == id) l hle
    · rw [hdef]
      have hlen := List.length_eq_countP_add_countP (p := fun e => e.id == id) (l := l)
      rw [← List.countP_eq_length_filter]
      have hsame : l.countP (fun a => !(a.id == id)) = l.countP (fun a => ¬(a.id == id)) := by
        refine List.countP_congr (fun a _ => ?_)
        by_cases ha : a.id = id <;> simp [ha]
      rw [hsame]
      omega
    · intro e he hne
      rw [hdef]
      exact List.mem_filter.mpr ⟨he, by simp [hne]⟩

/-- Witness for C8: deleting id 2 from a two-element list removes exactly
the matching entry. -/
theorem deleteExpense_exact_witness :
    handleDeleteExpense 2 [⟨1, 10, "Food", ⟨2024, 7, 1⟩⟩, ⟨2, 20, "Travel", ⟨2024, 7, 2⟩⟩]
      = List.eraseP (fun e => e.id == 2)
          [⟨1, 10, "Food", ⟨2024, 7, 1⟩⟩, ⟨2, 20, "Travel", ⟨2024, 7, 2⟩⟩] :=
  ((deleteExpense_exact 2
      [⟨1, 10, "Food", ⟨2024, 7, 1⟩⟩, ⟨2, 20, "Travel", ⟨2024, 7, 2⟩⟩]
      (by decide)).2 (by decide)).1

/-! ### Claim C7 -/

/-- Sortedness invariant of the expense list: descending by date (each
entry's date is on or after the date of every later entry). -/
def ExpensesSortedDesc (l : List Expense) : Prop :=
  l.Pairwise (fun a b => expenseDesc a b = true)

theorem sortExpenses_sorted (l : List Expense) : ExpensesSortedDesc (sortExpenses l) := by
  refine List.sorted_mergeSort ?_ ?_ l
  · intro a b c hab hbc
    simp only [expenseDesc, decide_eq_true_eq] at *
    exact le_trans hbc hab
  · intro a b
    simp only [expenseDesc]
    rcases le_total b.date.toDays a.date.toDays with h | h <;> simp [h]

/-- C7: after any sequence of mutations starting from a state whose expense
list is sorted descending by date (in particular the initial empty state),
the expense list is sorted descending by date; tie order is deterministic
because every operation is a pure function of its inputs. -/
theorem expenses_sorted_after_ops :
    ∀ (ops : List (Int × Op)) (s : AppData),
      ExpensesSortedDesc s.expenses → ExpensesSortedDesc ((runOps ops s).1.expenses) := by
  intro ops
  induction ops with
  | nil => intro s h; exact h
  | cons hd tl ih =>
    intro s h
    obtain ⟨fid, op⟩ := hd
    simp only [runOps]
    apply ih
    cases op with
    | addExpense a c d =>
      by_cases hrej : a = "" ∨ parseFloat a = none
      · simpa [applyOp, hrej] using h
      · simp only [applyOp]
        rw [if_neg (by simpa using hrej)]
        exact sortExpenses_sorted _
    | deleteExpense id =>
      simp only [applyOp]
      exact List.Pairwise.filter _ h
    | setWeeklyTarget v => simpa [applyOp] using h
    | setMonthlyTarget v => simpa [applyOp] using h

/-- Witness for C7: two adds (out of date order) and a delete starting from
the empty initial state leave a sorted list. -/
theorem expenses_sorted_after_ops_witness :
    ExpensesSortedDesc ((runOps
      [(1, Op.addExpense "10" "Food" ⟨2024, 7, 5⟩),
       (2, Op.addExpense "20" "Travel" ⟨2024, 7, 9⟩),
       (3, Op.deleteExpense 1)] ⟨[], 0, 0⟩).1.expenses) :=
  expenses_sorted_after_ops
    [(1, Op.addExpense "10" "Food" ⟨2024, 7, 5⟩),
     (2, Op.addExpense "20" "Travel" ⟨2024, 7, 9⟩),
     (3, Op.deleteExpense 1)] ⟨[], 0, 0⟩ (by simp [ExpensesSortedDesc])

/-! ### Claim C5 -/

/-- C5: the week window starts at the most recent Monday at or before `now`
(getDay code 1), truncated to the start of the day, and `weeklySpent` sums
exactly the expenses dated on or after that start; for `now = 2024-07-10`
(a Wednesday, getDay 3) the window starts Monday `2024-07-08`, so an
expense dated `2024-07-07` is excluded from `weeklySpent` but included in
`monthlySpent`. -/
theorem weekly_window_monday :
    (∀ now : Int,
      dayOfWeek (getStartOfWeek now) = 1 ∧
      getStartOfWeek now ≤ now ∧ now - getStartOfWeek now < 7) ∧
    (∀ (now : CivilDate) (l : List Expense),
      (computeAggregates now l).weeklySpent
        = sumAmounts (l.filter (fun e => decide (getStartOfWeek now.toDays ≤ e.date.toDays)))) ∧
    getStartOfWeek (CivilDate.toDays ⟨2024, 7, 10⟩) = CivilDate.toDays ⟨2024, 7, 8⟩ ∧
    dayOfWeek (CivilDate.toDays ⟨2024, 7, 10⟩) = 3 ∧
    (∀ amt : ℚ,
      (computeAggregates ⟨2024, 7, 10⟩ [⟨1, amt, "Food", ⟨2024, 7, 7⟩⟩]).weeklySpent = 0 ∧
      (computeAggregates ⟨2024, 7, 10⟩ [⟨1, amt, "Food", ⟨2024, 7, 7⟩⟩]).monthlySpent = amt) := by
  refine ⟨?_, ?_, by decide, by decide, ?_⟩
  · intro now
    simp only [getStartOfWeek, dayOfWeek]
    by_cases h : (now + 4) % 7 = 0
    · rw [if_pos h]
      refine ⟨by omega, by omega, by omega⟩
    · rw [if_neg h]
      refine ⟨by omega, by omega, by omega⟩
  · intro now l
    rw [computeAggregates_eq]
    rfl
  · intro amt
    refine ⟨?_, ?_⟩ <;> rw [computeAggregates_eq] <;>
      simp +decide [windowSum, sumAmounts, CivilDate.toDays, daysFromCivil,
        getStartOfWeek, dayOfWeek, List.filter_cons]

/-! ### Claim C6 -/

theorem sum_map_add_pointwise (ks : List String) (g h : String → ℚ) :
    (ks.map (fun c => g c + h c)).sum = (ks.map g).sum + (ks.map h).sum := by
  induction ks with
  | nil => simp
  | cons k t ih => simp only [List.map_cons, List.sum_cons, ih]; ring

theorem sum_map_indicator (ks : List String) (c0 : String) (x : ℚ)
    (hmem : c0 ∈ ks) (hnd : ks.Nodup) :
    (ks.map (fun c => if c0 = c then x else 0)).sum = x := by
  induction ks with
  | nil => cases hmem
  | cons k t ih =>
    rcases List.mem_cons.mp hmem with h | h
    · have hz : ∀ q ∈ t.map (fun c => if c0 = c then x else (0 : ℚ)), q = 0 := by
        intro q hq
        rcases List.mem_map.mp hq with ⟨c, hcmem, hce⟩
        have hne : c0 ≠ c := fun he => (List.nodup_cons.mp hnd).1 (h ▸ he ▸ hcmem)
        rw [← hce, if_neg hne]
      rw [List.map_cons, List.sum_cons, if_pos h, List.sum_eq_zero hz, add_zero]
    · have hk : ¬ (c0 = k) := fun he => (List.nodup_cons.mp hnd).1 (he ▸ h)
      rw [List.map_cons, List.sum_cons, if_neg hk,
        ih h (List.nodup_cons.mp hnd).2, zero_add]

theorem catSum_cons_notmatch (som : Int) (c : String) (e : Expense) (t : List Expense)
    (h : ¬ e.category = c) : catSum som c (e :: t) = catSum som c t := by
  simp [catSum, sumAmounts, List.filter_cons, h]

theorem catSum_total (som : Int) (l : List Expense)
    (hall : ∀ e ∈ l, e.category ∈ CATEGORIES) :
    (CATEGORIES.map (fun c => catSum som c l)).sum = windowSum som l := by
  induction l with
  | nil => simp [catSum, windowSum, sumAmounts, CATEGORIES]
  | cons e t ih =>
    have hallt : ∀ x ∈ t, x.category ∈ CATEGORIES :=
      fun x hx => hall x (List.mem_cons_of_mem e hx)
    have he : e.category ∈ CATEGORIES := hall e (List.mem_cons_self e t)
    have hnd : CATEGORIES.Nodup := by decide
    by_cases hm : som ≤ e.date.toDays
    · have hstep : ∀ c, catSum som c (e :: t)
          = (if e.category = c then e.amount else 0) + catSum som c t := by
        intro c
        by_cases hc : e.category = c
        · rw [if_pos hc]
          simp [catSum, sumAmounts, List.filter_cons, hm, hc.symm]
        · rw [if_neg hc, catSum_cons_notmatch som c e t hc, zero_add]
      calc (CATEGORIES.map (fun c => catSum som c (e :: t))).sum
          = (CATEGORIES.map
              (fun c => (if e.category = c then e.amount else 0) + catSum som c t)).sum := by
            exact congrArg _ (List.map_congr_left fun c _ => hstep c)
        _ = (CATEGORIES.map (fun c => if e.category = c then e.amount else 0)).sum
              + (CATEGORIES.map (fun c => catSum som c t)).sum :=
            sum_map_add_pointwise CATEGORIES _ _
        _ = e.amount + windowSum som t := by
            rw [sum_map_indicator CATEGORIES e.category e.amount he hnd, ih hallt]
        _ = windowSum som (e :: t) := (windowSum_cons_pos som e t hm).symm
    · have hstep : ∀ c, catSum som c (e :: t) = catSum som c t := by
        intro c
        simp [catSum, sumAmounts, List.filter_cons, hm]
      calc (CATEGORIES.map (fun c => catSum som c (e :: t))).sum
          = (CATEGORIES.map (fun c => catSum som c t)).sum :=
            congrArg _ (List.map_congr_left fun c _ => hstep c)
        _ = windowSum som t := ih hallt
        _ = windowSum som (e :: t) := (windowSum_cons_neg som e t hm).symm

theorem windowSum_append_single (start : Int) (l : List Expense) (e : Expense) :
    windowSum start (l ++ [e])
      = windowSum start l + (if start ≤ e.date.toDays then e.amount else 0) := by
  by_cases h : start ≤ e.date.toDays <;>
    simp [windowSum, sumAmounts, List.filter_append, List.filter_cons, h]

theorem catSum_append_single_notmatch (som : Int) (c : String) (l : List Expense)
    (e : Expense) (h : ¬ e.category = c) :
    catSum som c (l ++ [e]) = catSum som c l := by
  simp [catSum, sumAmounts, List.filter_append, List.filter_cons, h]

/-- C6: when every expense's category belongs to the fixed set, the five
category totals sum exactly to `monthlySpent`; appending an expense with an
out-of-set category leaves every category bucket unchanged while still
contributing to `monthlySpent` (and to `weeklySpent` when inside the week
window). -/
theorem categoryTotals_partition :
    (∀ (now : CivilDate) (l : List Expense),
      (∀ e ∈ l, e.category ∈ CATEGORIES) →
        ((computeAggregates now l).categoryTotals.map Prod.snd).sum
          = (computeAggregates now l).monthlySpent) ∧
    (∀ (now : CivilDate) (l : List Expense) (e : Expense),
      e.category ∉ CATEGORIES →
        (computeAggregates now (l ++ [e])).categoryTotals
            = (computeAggregates now l).categoryTotals ∧
        (computeAggregates now (l ++ [e])).monthlySpent
            = (computeAggregates now l).monthlySpent
              + (if daysFromCivil now.year now.month 1 ≤ e.date.toDays then e.amount else 0) ∧
        (computeAggregates now (l ++ [e])).weeklySpent
            = (computeAggregates now l).weeklySpent
              + (if getStartOfWeek now.toDays ≤ e.date.toDays then e.amount else 0)) := by
  constructor
  · intro now l hall
    rw [computeAggregates_eq]
    simp only [List.map_map]
    have hcomp : (Prod.snd ∘ fun c => (c, catSum (daysFromCivil now.year now.month 1) c l))
        = fun c => catSum (daysFromCivil now.year now.month 1) c l := rfl
    rw [hcomp]
    exact catSum_total _ l hall
  · intro now l e hout
    refine ⟨?_, ?_, ?_⟩
    · rw [computeAggregates_eq, computeAggregates_eq]
      simp only
      refine List.map_congr_left (fun c hc => ?_)
      have hne : ¬ e.category = c := fun hx => hout (hx ▸ hc)
      rw [catSum_append_single_notmatch _ c l e hne]
    · rw [computeAggregates_eq, computeAggregates_eq]
      simp only
      exact windowSum_append_single _ l e
    · rw [computeAggregates_eq, computeAggregates_eq]
      simp only
      exact windowSum_append_single _ l e

/-- Witness for C6: one in-set expense makes the totals sum to
`monthlySpent`; appending an out-of-set expense leaves the buckets of the
empty list unchanged. -/
theorem categoryTotals_partition_witness :
    ((computeAggregates ⟨2024, 7, 10⟩
        [⟨1, 100, "Food", ⟨2024, 7, 5⟩⟩]).categoryTotals.map Prod.snd).sum
      = (computeAggregates ⟨2024, 7, 10⟩ [⟨1, 100, "Food", ⟨2024, 7, 5⟩⟩]).monthlySpent ∧
    (computeAggregates ⟨2024, 7, 10⟩
        ([] ++ [⟨2, 7, "Groceries", ⟨2024, 7, 6⟩⟩])).categoryTotals
      = (computeAggregates ⟨2024, 7, 10⟩ []).categoryTotals :=
  ⟨categoryTotals_partition.1 ⟨2024, 7, 10⟩ [⟨1, 100, "Food", ⟨2024, 7, 5⟩⟩] (by decide),
   (categoryTotals_partition.2 ⟨2024, 7, 10⟩ [] ⟨2, 7, "Groceries", ⟨2024, 7, 6⟩⟩
      (by decide)).1⟩

/-! ### Claim C10 -/

theorem lookupTotal_map (c : String) (ks : List String) (g : String → ℚ) :
    lookupTotal c (ks.map (fun x => (x, g x))) = if c ∈ ks then some (g c) else none := by
  induction ks with
  | nil => simp [lookupTotal]
  | cons k t ih =>
    by_cases hk : k = c
    · subst hk
      simp [lookupTotal]
    · have hck : ¬ c = k := fun h => hk h.symm
      simp [lookupTotal, hk, hck, List.mem_cons, ih]

/-- C10: for every expense list and every `now`, the `categoryTotals`
object contains exactly the five fixed categories as keys, and the value
under a fixed category is 0 whenever no expense in the monthly window
matches it — in particular for the empty list. -/
theorem categoryTotals_keys :
    ∀ (now : CivilDate) (l : List Expense),
      ((computeAggregates now l).categoryTotals.map Prod.fst = CATEGORIES) ∧
      (∀ c, c ∈ CATEGORIES →
        l.filter (fun e => decide (daysFromCivil now.year now.month 1 ≤ e.date.toDays)
            && decide (e.category = c)) = [] →
        lookupTotal c (computeAggregates now l).categoryTotals = some 0) := by
  intro now l
  rw [computeAggregates_eq]
  constructor
  · simp only [List.map_map]
    have hcomp : (Prod.fst ∘ fun c => (c, catSum (daysFromCivil now.year now.month 1) c l))
        = fun c => c := rfl
    rw [hcomp, List.map_id']
  · intro c hc hfilter
    rw [lookupTotal_map, if_pos hc]
    have : catSum (daysFromCivil now.year now.month 1) c l = 0 := by
      rw [catSum, hfilter]
      simp [sumAmounts]
    rw [this]

/-- Witness for C10: the empty expense list still yields a zero bucket for
"Travel". -/
theorem categoryTotals_keys_witness :
    lookupTotal "Travel" (computeAggregates ⟨2024, 7, 10⟩ []).categoryTotals = some 0 :=
  (categoryTotals_keys ⟨2024, 7, 10⟩ []).2 "Travel" (by decide) rfl

end ExpenseTracker
